import Mathlib

/-!
Shallow embedding of `redis-save-manager.go` (package main of the
Doist/redis-save-manager repository) and proofs about it.

The program reads a list of redis addresses, shuffles it, disables automatic
persistence on every host (`disablePersistence`), and then loops forever over
the hosts calling `saveBlocking` (BGSAVE and poll LASTSAVE) sequentially,
checking the context after each host and between passes, until the context
deadline fires.

Modelling choices, each tied to the Go source:
  * Network effects are oracles: an `Env` supplies, for each call site, the
    outcome the network would produce (dial failure, protocol failure,
    context error, success), and the context-done checks are a boolean
    oracle indexed by the order in which `select`-style checks occur.
  * `saveBlocking`'s polling loop consumes a list of `PollEvent`s: each
    entry is what the next `select` iteration observes (ctx.Done fired, a
    LASTSAVE read error, or a LASTSAVE value).  The list being exhausted
    means the loop is still running (`none`), mirroring that the Go loop
    has no termination of its own.
  * The orchestration loop in `do` runs forever unless the context fires,
    so the model takes a pass-count fuel and returns `none` when the fuel
    runs out with the loop still going.
  * Durations are modelled in seconds (`Nat`) where a claim needs them;
    the deadline flag arithmetic is in nanoseconds (`Int`), the unit of
    Go's `time.Duration`.
-/

namespace RedisSaveManager

/-- Outcome of one `saveBlocking(ctx, addr)` call as seen by `do`:
`ok` (nil error), a dial/connect error, a rejected or unparseable command
(protocol error), or `ctx.Err()` surfaced from inside the polling loop. -/
inductive SaveCallResult
  | ok
  | connectErr
  | protocolErr
  | cancelledErr
deriving DecidableEq

/-- Errors `do` can return: `errors.New("empty addresses")` for an empty
endpoint list, or `ctx.Err()` when a context-done check fires. -/
inductive DoError
  | emptyAddresses
  | ctxErr
deriving DecidableEq

/-- Observable events of one run of `do`, in program order:
`disable a failed` is the `disablePersistence(addr)` call of the first loop
(with whether it returned an error, which is then logged);
`beginSave`/`endSave` bracket one synchronous `saveBlocking(ctx, addr)` call;
`logSaved`/`logErr` are the two `log.Printf` branches that follow it;
`interPassWait` is the `time.After(10 * time.Second)` sleep between passes. -/
inductive Ev
  | disable (addr : String) (failed : Bool)
  | beginSave (addr : String)
  | endSave (addr : String) (r : SaveCallResult)
  | logSaved (addr : String)
  | logErr (addr : String) (r : SaveCallResult)
  | interPassWait
deriving DecidableEq

/-- Oracle for everything outside the program: whether
`disablePersistence` fails on a given address, the outcome of the
`saveBlocking` call for (pass index, endpoint index), and the value of the
n-th `ctx.Done()` check performed by `do` (checks are numbered in the order
they execute: one after every endpoint, one before every inter-pass wait). -/
structure Env where
  disableFails : String → Bool
  outcome : Nat → Nat → SaveCallResult
  done : Nat → Bool

/-- Trace of one endpoint iteration of the saving loop of `do`:
`saveBlocking` runs (begin/end), then exactly one of the two log lines,
matching `if err := saveBlocking(ctx, addr); err != nil { log.Printf } else
{ log.Printf saved }`. -/
def blockFor (a : String) (r : SaveCallResult) : List Ev :=
  [Ev.beginSave a, Ev.endSave a r] ++
    (if r = SaveCallResult.ok then [Ev.logSaved a] else [Ev.logErr a r])

/-- One saving pass of `do` (`for _, addr := range addrs { ... }` inside the
outer `for`): processes the remaining endpoint list starting at endpoint
index `i` with next context-check index `c`.  After each endpoint the
`select`/`default` check runs: if `done c` the pass stops (the Go code
returns `ctx.Err()`).  Returns the events emitted, whether the pass aborted
on a fired check, and the next check index. -/
def passStep (out : Nat → SaveCallResult) (done : Nat → Bool) :
    List String → Nat → Nat → List Ev × Bool × Nat
  | [], _, c => ([], false, c)
  | a :: rest, i, c =>
    if done c then (blockFor a (out i), true, c + 1)
    else
      let res := passStep out done rest (i + 1) (c + 1)
      (blockFor a (out i) ++ res.1, res.2.1, res.2.2)

/-- Trace of the first loop of `do`: one `disablePersistence` call per
address, in order, errors logged and ignored. -/
def disableTrace (fails : String → Bool) (addrs : List String) : List Ev :=
  addrs.map (fun a => Ev.disable a (fails a))

/-- Expected trace of a (portion of a) saving pass over the given endpoint
list starting at endpoint index `i`: used to state which endpoints a run
actually processed. -/
def savingTrace (out : Nat → SaveCallResult) : List String → Nat → List Ev
  | [], _ => []
  | a :: rest, i => blockFor a (out i) ++ savingTrace out rest (i + 1)

/-- The outer `for { ... }` loop of `do`, with `fuel` bounding the number of
passes we unfold (the Go loop is endless; `none` as the result means the
loop was still running when the fuel ran out).  After a pass that was not
aborted, the inter-pass `select` runs: if the context fired it returns
`ctx.Err()`, otherwise it sleeps 10 seconds (`interPassWait`) and starts the
next pass. -/
def runPasses (addrs : List String) (env : Env) :
    Nat → Nat → Nat → List Ev × Option DoError
  | 0, _, _ => ([], none)
  | Nat.succ fuel, p, c =>
    let res := passStep (env.outcome p) env.done addrs 0 c
    if res.2.1 then (res.1, some DoError.ctxErr)
    else if env.done res.2.2 then (res.1, some DoError.ctxErr)
    else
      let rest := runPasses addrs env fuel (p + 1) (res.2.2 + 1)
      (res.1 ++ Ev.interPassWait :: rest.1, rest.2)

/-- The function `do(ctx, log, addrs)` of the source (named `doRun` here
because `do` is reserved): empty address list is the setup error, otherwise
the disabling pass runs to completion (it performs no context checks) and
the saving loop takes over.  Returns the event trace and the error result
(`none` = still looping when `fuel` passes were unfolded). -/
def doRun (addrs : List String) (env : Env) (fuel : Nat) :
    List Ev × Option DoError :=
  if addrs = [] then ([], some DoError.emptyAddresses)
  else
    let rest := runPasses addrs env fuel 0 0
    (disableTrace env.disableFails addrs ++ rest.1, rest.2)

/-- What one iteration of `saveBlocking`'s polling `select` observes:
the context fired, the `LASTSAVE` re-read errored, or the re-read returned
the value `v`. -/
inductive PollEvent
  | ctxDone
  | readErr
  | read (v : Int)
deriving DecidableEq

/-- Result of `saveBlocking`: success (a changed marker), a dial failure,
a failure of the initial `LASTSAVE`/`BGSAVE` commands, `ctx.Err()` from the
polling loop, or a failed `LASTSAVE` re-read inside the loop. -/
inductive SBResult
  | ok
  | dialErr
  | protoErr
  | ctxCancelled
  | pollReadErr
deriving DecidableEq

/-- The polling loop of `saveBlocking` (`for { select { ... } }`): on
`ctx.Done` return `ctx.Err()`; on a tick, re-read `LASTSAVE` — an error is
returned as is, and a value `cur` returns success iff `cur != prev`.
`none` means the loop is still polling when the event list runs out. -/
def pollLoop (prev : Int) : List PollEvent → Option SBResult
  | [] => none
  | PollEvent.ctxDone :: _ => some SBResult.ctxCancelled
  | PollEvent.readErr :: _ => some SBResult.pollReadErr
  | PollEvent.read v :: rest =>
    if v ≠ prev then some SBResult.ok else pollLoop prev rest

/-- The function `saveBlocking(ctx, addr)`: dial (15 s timeout), read the
`LASTSAVE` marker (`prevRead = none` models an unparseable/failed read),
issue `BGSAVE` (`bgsaveOk = false` models a rejected command), then enter
the polling loop. -/
def saveBlocking (dialOk : Bool) (prevRead : Option Int) (bgsaveOk : Bool)
    (polls : List PollEvent) : Option SBResult :=
  if dialOk = false then some SBResult.dialErr
  else
    match prevRead with
    | none => some SBResult.protoErr
    | some prev =>
      if bgsaveOk = false then some SBResult.protoErr
      else pollLoop prev polls

/-- The `LASTSAVE` values actually read by the polling loop before it
returns: a read is performed on each tick until the loop exits, and the loop
exits right after the first read that differs from `prev` (or on a context /
read-error event, before which no further read happens). -/
def performedReads (prev : Int) : List PollEvent → List Int
  | [] => []
  | PollEvent.ctxDone :: _ => []
  | PollEvent.readErr :: _ => []
  | PollEvent.read v :: rest =>
    v :: (if v ≠ prev then [] else performedReads prev rest)

/-- Index (1-based) of the ticker tick at which the polling loop returns
success, if it does.  The loop re-reads the marker only when the 10-second
ticker `t` fires, so the n-th read happens `10 * n` seconds after `BGSAVE`
was issued. -/
def successTick (prev : Int) : List PollEvent → Option Nat
  | [] => none
  | PollEvent.ctxDone :: _ => none
  | PollEvent.readErr :: _ => none
  | PollEvent.read v :: rest =>
    if v ≠ prev then some 1 else (successTick prev rest).map (fun n => n + 1)

/-- Polling interval of `saveBlocking` in seconds
(`time.NewTicker(10 * time.Second)`). -/
def pollIntervalSeconds : Nat := 10

/-- Inter-pass delay of `do` in seconds (`time.After(10 * time.Second)`). -/
def interPassDelaySeconds : Nat := 10

/-- Connect timeout of `disablePersistence` in seconds
(`redis.DialTimeout("tcp", addr, 5*time.Second)`). -/
def dialTimeoutToggleSeconds : Nat := 5

/-- Connect timeout of `saveBlocking` in seconds
(`redis.DialTimeout("tcp", addr, 15*time.Second)`). -/
def dialTimeoutSaveSeconds : Nat := 15

/-- Timed model of `disablePersistence(addr)`.  The function takes no
context: its signature is `func disablePersistence(addr string) error`.  The
dial blocks for `min dialDur 5` seconds (connect timeout 5 s) and fails if
the peer needs longer than 5 s; on success the `CONFIG SET SAVE ""` command
takes `cmdDur` more seconds and returns `cmdOk`.  Returns (success, elapsed
seconds); the elapsed time does not depend on any cancellation signal
because none is in scope. -/
def disablePersistence (dialDur cmdDur : Nat) (cmdOk : Bool) : Bool × Nat :=
  if dialTimeoutToggleSeconds < dialDur then (false, dialTimeoutToggleSeconds)
  else (cmdOk, dialDur + cmdDur)

/-- The simultaneous swap `addrs[i], addrs[j] = addrs[j], addrs[i]` of the
shuffle loop in `main`, as a total function on lists (out-of-range indices
leave the list unchanged; the loop only ever uses in-range indices). -/
def swapIdx (l : List α) (i j : Nat) : List α :=
  match l[i]?, l[j]? with
  | some a, some b => (l.set i b).set j a
  | some _, none => l
  | none, some _ => l
  | none, none => l

/-- The shuffle loop of `main`:
`for i := range addrs { j := rand.Intn(i + 1); swap i j }`.
`r i` models the random stream; `rand.Intn(i+1)` is uniform on `[0, i]`,
modelled as `r i % (i + 1)` so that every in-range value is reachable. -/
def shuffleGo (r : Nat → Nat) (l : List α) : List α :=
  (List.range l.length).foldl (fun acc i => swapIdx acc i (r i % (i + 1))) l

/-- One minute in nanoseconds, the unit of Go's `time.Duration`
(`time.Minute`). -/
def timeMinuteNs : Int := 60000000000

/-- The deadline clamp in `main`:
`if args.Deadline < time.Minute { args.Deadline = time.Minute }`. -/
def clampDeadline (d : Int) : Int :=
  if d < timeMinuteNs then timeMinuteNs else d

/-- Predicate tested by `bytes.TrimSpace` (`unicode.IsSpace`) on the byte /
Latin-1 range; space code points above U+00FF do not occur in address
files and are omitted. -/
def goIsSpace (c : Char) : Bool :=
  c = ' ' || c = '\t' || c = '\n' || c = '\x0B' || c = '\x0C' || c = '\r' ||
    c = '\x85' || c = '\xA0'

/-- The `bytes.TrimSpace(scanner.Bytes())` applied to one scanned line:
strips the space predicate from both ends. -/
def trimSpace (s : String) : String :=
  String.mk (((s.data.dropWhile goIsSpace).reverse.dropWhile goIsSpace).reverse)

/-- The function `readLines` of the source, over the lines the
`bufio.Scanner` yields (file IO is outside the model): every line is
trimmed and appended — `out = append(out, string(bytes.TrimSpace(...)))`
runs unconditionally, so trimmed-empty lines are kept as `""` entries. -/
def readLines (lines : List String) : List String :=
  lines.map trimSpace

/-- In-flight save counter automaton used to state mutual exclusion: `flow
evs n` walks the trace with `n` saves currently in flight, fails (`none`) if
a save begins while another is in flight or ends without being in flight,
and otherwise returns the final in-flight count. -/
def flow : List Ev → Nat → Option Nat
  | [], n => some n
  | Ev.beginSave _ :: rest, n => if n = 0 then flow rest (n + 1) else none
  | Ev.endSave _ _ :: rest, n => if 1 ≤ n then flow rest (n - 1) else none
  | Ev.disable _ _ :: rest, n => flow rest n
  | Ev.logSaved _ :: rest, n => flow rest n
  | Ev.logErr _ _ :: rest, n => flow rest n
  | Ev.interPassWait :: rest, n => flow rest n

/-- Every value in `performedReads` comes from a `read` event of the poll
stream. -/
theorem mem_performedReads {prev v : Int} :
    ∀ {polls : List PollEvent}, v ∈ performedReads prev polls →
      PollEvent.read v ∈ polls := by
  intro polls
  induction polls with
  | nil => simp [performedReads]
  | cons e rest ih =>
    cases e with
    | ctxDone => simp [performedReads]
    | readErr => simp [performedReads]
    | read w =>
      by_cases hw : w = prev
      · subst hw
        simp only [performedReads, if_neg (show ¬(w ≠ w) from fun hne => hne rfl)]
        intro h
        rcases List.mem_cons.mp h with h | h
        · exact List.mem_cons.mpr (Or.inl (by rw [h]))
        · exact List.mem_cons.mpr (Or.inr (ih h))
      · simp only [performedReads, if_pos hw]
        intro h
        rcases List.mem_cons.mp h with h | h
        · exact List.mem_cons.mpr (Or.inl (by rw [h]))
        · simp at h

/-- The polling loop returns success exactly when one of the reads it
performed differs from the pre-trigger marker. -/
theorem pollLoop_ok_iff (prev : Int) :
    ∀ polls : List PollEvent,
      pollLoop prev polls = some SBResult.ok ↔
        ∃ v ∈ performedReads prev polls, v ≠ prev := by
  intro polls
  induction polls with
  | nil => simp [pollLoop, performedReads]
  | cons e rest ih =>
    cases e with
    | ctxDone => simp [pollLoop, performedReads]
    | readErr => simp [pollLoop, performedReads]
    | read v =>
      by_cases hv : v = prev
      · subst hv
        simpa [pollLoop, performedReads] using ih
      · simp [pollLoop, performedReads, hv]

/-- Claim C1: `saveBlocking` returns success if and only if one of the
post-trigger `LASTSAVE` reads it performed differs (strict inequality) from
the marker read before `BGSAVE` was issued; if every read event of the poll
stream carries the pre-trigger value it never returns success, however many
polls occur. -/
theorem c1_save_success_iff (prev : Int) (polls : List PollEvent) :
    (saveBlocking true (some prev) true polls = some SBResult.ok ↔
        ∃ v ∈ performedReads prev polls, v ≠ prev) ∧
      ((∀ v : Int, PollEvent.read v ∈ polls → v = prev) →
        saveBlocking true (some prev) true polls ≠ some SBResult.ok) := by
  have hred : saveBlocking true (some prev) true polls = pollLoop prev polls := by
    simp [saveBlocking]
  constructor
  · rw [hred]
    exact pollLoop_ok_iff prev polls
  · intro hall hok
    rw [hred] at hok
    rcases (pollLoop_ok_iff prev polls).mp hok with ⟨v, hv, hne⟩
    exact hne (hall v (mem_performedReads hv))

/-- Witness for C1: with pre-trigger marker 100, a poll stream whose first
read returns 101 yields success, and one whose reads all return 100 does
not. -/
theorem c1_save_success_iff_witness :
    saveBlocking true (some 100) true [PollEvent.read 101] = some SBResult.ok ∧
      saveBlocking true (some 100) true [PollEvent.read 100, PollEvent.read 100]
        ≠ some SBResult.ok := by
  constructor
  · exact (c1_save_success_iff 100 [PollEvent.read 101]).1.mpr
      ⟨101, by decide, by decide⟩
  · exact (c1_save_success_iff 100 [PollEvent.read 100, PollEvent.read 100]).2
      (by intro v hv; rcases List.mem_cons.mp hv with h | h
          · cases h; rfl
          · rcases List.mem_cons.mp h with h | h
            · cases h; rfl
            · simp at h)

/-- Success of the polling loop happens at some tick, and never before the
first one. -/
theorem pollLoop_ok_successTick (prev : Int) :
    ∀ polls : List PollEvent, pollLoop prev polls = some SBResult.ok →
      ∃ n, successTick prev polls = some n ∧ 1 ≤ n := by
  intro polls
  induction polls with
  | nil => simp [pollLoop]
  | cons e rest ih =>
    cases e with
    | ctxDone => simp [pollLoop]
    | readErr => simp [pollLoop]
    | read v =>
      by_cases hv : v = prev
      · subst hv
        intro h
        simp only [pollLoop, if_neg (show ¬(v ≠ v) from fun hne => hne rfl)] at h
        rcases ih h with ⟨n, hn, h1⟩
        refine ⟨n + 1, ?_, by omega⟩
        simp [successTick, hn]
      · intro _
        exact ⟨1, by simp [successTick, hv], le_refl 1⟩

/-- Claim C10: a successful `saveBlocking` re-reads the marker only on
ticker ticks, so success is observed at the `n`-th tick for some `n ≥ 1`,
i.e. no earlier than one full 10-second poll interval after the trigger —
even when the save completed instantly. -/
theorem c10_success_needs_one_tick (prev : Int) (polls : List PollEvent)
    (h : saveBlocking true (some prev) true polls = some SBResult.ok) :
    ∃ n, successTick prev polls = some n ∧ 1 ≤ n ∧
      pollIntervalSeconds ≤ pollIntervalSeconds * n := by
  have hred : saveBlocking true (some prev) true polls = pollLoop prev polls := by
    simp [saveBlocking]
  rw [hred] at h
  rcases pollLoop_ok_successTick prev polls h with ⟨n, hn, h1⟩
  exact ⟨n, hn, h1, by simp [pollIntervalSeconds]; omega⟩

/-- Witness for C10: an instantly-completed save (marker changed already at
the first read) is still only observed at tick 1, ten seconds in. -/
theorem c10_success_needs_one_tick_witness :
    ∃ n, successTick 0 [PollEvent.read 1] = some n ∧ 1 ≤ n ∧
      pollIntervalSeconds ≤ pollIntervalSeconds * n :=
  c10_success_needs_one_tick 0 [PollEvent.read 1] (by decide)

/-- Claim C9: a requested deadline below one minute (including zero and
negative durations) is clamped to exactly one minute; a requested deadline
of at least one minute is used unchanged. -/
theorem c9_deadline_floor :
    (∀ d : Int, d < timeMinuteNs → clampDeadline d = timeMinuteNs) ∧
      (∀ d : Int, timeMinuteNs ≤ d → clampDeadline d = d) := by
  constructor
  · intro d h
    simp [clampDeadline, h]
  · intro d h
    simp [clampDeadline, not_lt.mpr h]

/-- Witness for C9: requested deadlines of 0 ns, −1 ns and 2 minutes. -/
theorem c9_deadline_floor_witness :
    clampDeadline 0 = timeMinuteNs ∧ clampDeadline (-1) = timeMinuteNs ∧
      clampDeadline 120000000000 = 120000000000 :=
  ⟨c9_deadline_floor.1 0 (by decide), c9_deadline_floor.1 (-1) (by decide),
    c9_deadline_floor.2 120000000000 (by decide)⟩

/-- The in-flight automaton is compositional over trace concatenation. -/
theorem flow_append :
    ∀ (xs ys : List Ev) (n : Nat),
      flow (xs ++ ys) n = (flow xs n).bind (fun m => flow ys m) := by
  intro xs
  induction xs with
  | nil => intro ys n; simp [flow]
  | cons e rest ih =>
    intro ys n
    cases e with
    | beginSave a =>
      by_cases hn : n = 0
      · simp [flow, hn, ih]
      · simp [flow, hn]
    | endSave a r =>
      by_cases hn : 1 ≤ n
      · simp [flow, hn, ih]
      · simp [flow, hn]
    | disable a f => simp [flow, ih]
    | logSaved a => simp [flow, ih]
    | logErr a r => simp [flow, ih]
    | interPassWait => simp [flow, ih]

/-- One endpoint iteration's trace is balanced: its save begins with nothing
in flight and ends with nothing in flight. -/
theorem flow_blockFor (a : String) (r : SaveCallResult) :
    flow (blockFor a r) 0 = some 0 := by
  cases r <;> rfl

/-- The disabling pass performs no saves. -/
theorem flow_disableTrace (f : String → Bool) :
    ∀ (addrs : List String) (n : Nat), flow (disableTrace f addrs) n = some n := by
  intro addrs
  induction addrs with
  | nil => intro n; rfl
  | cons a rest ih => intro n; simp [disableTrace, flow] at ih ⊢; exact ih n

/-- A saving-pass trace is balanced. -/
theorem flow_savingTrace (out : Nat → SaveCallResult) :
    ∀ (l : List String) (i : Nat), flow (savingTrace out l i) 0 = some 0 := by
  intro l
  induction l with
  | nil => intro i; rfl
  | cons a rest ih =>
    intro i
    rw [savingTrace, flow_append, flow_blockFor]
    exact ih (i + 1)

/-- The trace of one (possibly aborted) saving pass is balanced. -/
theorem flow_passStep (out : Nat → SaveCallResult) (done : Nat → Bool) :
    ∀ (l : List String) (i c : Nat), flow (passStep out done l i c).1 0 = some 0 := by
  intro l
  induction l with
  | nil => intro i c; rfl
  | cons a rest ih =>
    intro i c
    cases hd : done c with
    | true => simp [passStep, hd, flow_blockFor]
    | false =>
      simp only [passStep, hd, Bool.false_eq_true, if_false]
      rw [flow_append, flow_blockFor]
      exact ih (i + 1) (c + 1)

/-- The trace of the whole outer loop is balanced. -/
theorem flow_runPasses (addrs : List String) (env : Env) :
    ∀ (fuel p c : Nat), flow (runPasses addrs env fuel p c).1 0 = some 0 := by
  intro fuel
  induction fuel with
  | zero => intro p c; rfl
  | succ f ih =>
    intro p c
    simp only [runPasses]
    cases hab : (passStep (env.outcome p) env.done addrs 0 c).2.1 with
    | true => simpa [hab] using flow_passStep (env.outcome p) env.done addrs 0 c
    | false =>
      simp only [hab, Bool.false_eq_true, if_false]
      cases hdn : env.done (passStep (env.outcome p) env.done addrs 0 c).2.2 with
      | true => simpa [hdn] using flow_passStep (env.outcome p) env.done addrs 0 c
      | false =>
        simp only [hdn, Bool.false_eq_true, if_false]
        rw [flow_append, flow_passStep]
        simpa [flow] using ih (p + 1) _

/-- Claim C2: in every run, saves are strictly sequential — the in-flight
automaton accepts every `doRun` trace, i.e. a save never begins while
another save is still in flight (and every save that begins also ends),
for every endpoint list, environment and number of passes. -/
theorem c2_sequential_saves (addrs : List String) (env : Env) (fuel : Nat) :
    flow ((doRun addrs env fuel).1) 0 = some 0 := by
  by_cases h : addrs = []
  · simp [doRun, h, flow]
  · simp only [doRun, if_neg h]
    rw [flow_append, flow_disableTrace]
    simpa using flow_runPasses addrs env fuel 0 0

/-- If the context-done checks are clear for the first `k` endpoints of a
pass and fire at the check after endpoint `k`, the pass processes exactly
endpoints `0..k` and aborts. -/
theorem passStep_fires :
    ∀ (k : Nat) (l : List String) (out : Nat → SaveCallResult)
      (done : Nat → Bool) (i c : Nat),
      (∀ d, d < k → done (c + d) = false) → done (c + k) = true →
      k < l.length →
      passStep out done l i c =
        (savingTrace out (l.take (k + 1)) i, true, c + k + 1) := by
  intro k
  induction k with
  | zero =>
    intro l out done i c hpre hk hlen
    cases l with
    | nil => simp at hlen
    | cons a rest =>
      have hc : done c = true := by simpa using hk
      simp [passStep, hc, savingTrace]
  | succ k ih =>
    intro l out done i c hpre hk hlen
    cases l with
    | nil => simp at hlen
    | cons a rest =>
      have hc : done c = false := by simpa using hpre 0 (Nat.succ_pos k)
      have hpre2 : ∀ d, d < k → done (c + 1 + d) = false := by
        intro d hd
        have harith : c + 1 + d = c + (d + 1) := by omega
        rw [harith]
        exact hpre (d + 1) (by omega)
      have hk2 : done (c + 1 + k) = true := by
        have harith : c + 1 + k = c + (k + 1) := by omega
        rw [harith]; exact hk
      have hlen2 : k < rest.length := by simpa using hlen
      have ih2 := ih rest out done (i + 1) (c + 1) hpre2 hk2 hlen2
      simp only [passStep, hc, Bool.false_eq_true, if_false, ih2,
        List.take_succ_cons, savingTrace]
      have harith3 : c + 1 + k + 1 = c + (k + 1) + 1 := by omega
      rw [harith3]

/-- Claim C3: if the cancellation signal is clear at the checks after
endpoints `0..k-1` of the first pass and has fired at the check after
endpoint `k` (with `k` inside the list), the run returns the context error
right there: its trace is the disabling pass followed by the saving blocks
of the first `k + 1` endpoints only — none of the remaining endpoints of
the pass is processed. -/
theorem c3_abort_mid_pass (addrs : List String) (env : Env) (fuel k : Nat)
    (hpre : ∀ d, d < k → env.done d = false) (hk : env.done k = true)
    (hlen : k < addrs.length) (hfuel : 1 ≤ fuel) :
    doRun addrs env fuel =
      (disableTrace env.disableFails addrs ++
          savingTrace (env.outcome 0) (addrs.take (k + 1)) 0,
        some DoError.ctxErr) := by
  have hne : addrs ≠ [] := by
    intro h
    rw [h] at hlen
    simp at hlen
  obtain ⟨f, rfl⟩ : ∃ f, fuel = f + 1 := ⟨fuel - 1, by omega⟩
  have hps := passStep_fires k addrs (env.outcome 0) env.done 0 0
      (fun d hd => by simpa using hpre d hd) (by simpa using hk) hlen
  simp [doRun, hne, runPasses, hps]

/-- Witness for C3: a signal that has already fired when the saving loop
starts (`k = 0`) makes a three-endpoint run process only the first endpoint
and return the context error. -/
theorem c3_abort_mid_pass_witness :
    doRun ["a", "b", "c"]
        ⟨fun _ => false, fun _ _ => SaveCallResult.ok, fun _ => true⟩ 1 =
      (disableTrace (fun _ => false) ["a", "b", "c"] ++
          savingTrace (fun _ => SaveCallResult.ok) (["a", "b", "c"].take 1) 0,
        some DoError.ctxErr) :=
  c3_abort_mid_pass ["a", "b", "c"]
    ⟨fun _ => false, fun _ _ => SaveCallResult.ok, fun _ => true⟩ 1 0
    (fun d hd => absurd hd (Nat.not_lt_zero d)) rfl (by decide) (by decide)

/-- Counterexample to C5 as stated: the claim says the context error is
never logged as an error, but when the deadline fires during
`saveBlocking`, `do` runs `log.Printf("%s: %v", addr, err)` on the returned
`ctx.Err()` exactly as for a per-endpoint failure.  Concretely: one
endpoint, the save call surfaces the context error, and the run's trace
contains the error log line for it (the run then terminates with the
context error at the following check). -/
theorem c5_counterexample :
    Ev.logErr "a" SaveCallResult.cancelledErr ∈
        (doRun ["a"]
          ⟨fun _ => false, fun _ _ => SaveCallResult.cancelledErr, fun _ => true⟩
          1).1 ∧
      (doRun ["a"]
          ⟨fun _ => false, fun _ _ => SaveCallResult.cancelledErr, fun _ => true⟩
          1).2 = some DoError.ctxErr := by
  decide

/-- Claim C5 amended: once the cancellation signal has fired, the run does
terminate with the context error at the first post-endpoint check — the
signal is never absorbed into further endpoint processing — but a
`Cancelled`/`DeadlineExceeded` surfacing from inside the Save Waiter is
first logged with the endpoint identifier like any per-endpoint error. -/
theorem c5_ctx_escalates_but_logged (a : String) (rest : List String)
    (env : Env) (fuel : Nat) (hfuel : 1 ≤ fuel)
    (hdone : ∀ c, env.done c = true) :
    (doRun (a :: rest) env fuel).2 = some DoError.ctxErr ∧
      (env.outcome 0 0 ≠ SaveCallResult.ok →
        Ev.logErr a (env.outcome 0 0) ∈ (doRun (a :: rest) env fuel).1) := by
  obtain ⟨f, rfl⟩ : ∃ f, fuel = f + 1 := ⟨fuel - 1, by omega⟩
  have hps := passStep_fires 0 (a :: rest) (env.outcome 0) env.done 0 0
      (fun d hd => absurd hd (Nat.not_lt_zero d)) (by simpa using hdone 0)
      (by simp)
  constructor
  · simp [doRun, runPasses, hps]
  · intro hr
    simp [doRun, runPasses, hps, savingTrace, blockFor, hr]

/-- Witness for the amended C5: a fired signal and an endpoint whose save
call surfaces the context error. -/
theorem c5_ctx_escalates_but_logged_witness :
    (doRun ["a"]
        ⟨fun _ => false, fun _ _ => SaveCallResult.cancelledErr, fun _ => true⟩
        1).2 = some DoError.ctxErr ∧
      Ev.logErr "a" SaveCallResult.cancelledErr ∈
        (doRun ["a"]
          ⟨fun _ => false, fun _ _ => SaveCallResult.cancelledErr, fun _ => true⟩
          1).1 := by
  have h := c5_ctx_escalates_but_logged "a" []
    ⟨fun _ => false, fun _ _ => SaveCallResult.cancelledErr, fun _ => true⟩
    1 (by decide) (fun c => rfl)
  exact ⟨h.1, h.2 (by decide)⟩

/-- A saving pass with a clear signal processes every endpoint and does not
abort. -/
theorem passStep_noDone :
    ∀ (l : List String) (out : Nat → SaveCallResult) (done : Nat → Bool)
      (i c : Nat), (∀ n, done n = false) →
      passStep out done l i c = (savingTrace out l i, false, c + l.length) := by
  intro l
  induction l with
  | nil => intro out done i c h; simp [passStep, savingTrace]
  | cons a rest ih =>
    intro out done i c h
    have ih2 := ih out done (i + 1) (c + 1) h
    simp only [passStep, h c, Bool.false_eq_true, if_false, ih2, savingTrace,
      List.length_cons]
    have harith : c + 1 + rest.length = c + (rest.length + 1) := by omega
    rw [harith]

/-- With a clear signal the outer loop never returns: all fuel is consumed
with the run still going, whatever the per-endpoint outcomes are. -/
theorem runPasses_noDone (addrs : List String) (env : Env)
    (hdone : ∀ n, env.done n = false) :
    ∀ (fuel p c : Nat), (runPasses addrs env fuel p c).2 = none := by
  intro fuel
  induction fuel with
  | zero => intro p c; rfl
  | succ f ih =>
    intro p c
    have hps := passStep_noDone addrs (env.outcome p) env.done 0 c hdone
    simp [runPasses, hps, hdone, ih]

/-- Every endpoint of the list gets a save call in a full pass. -/
theorem mem_savingTrace (out : Nat → SaveCallResult) :
    ∀ (l : List String) (i : Nat) (a : String), a ∈ l →
      Ev.beginSave a ∈ savingTrace out l i := by
  intro l
  induction l with
  | nil => intro i a ha; simp at ha
  | cons b rest ih =>
    intro i a ha
    rcases List.mem_cons.mp ha with h | h
    · subst h
      exact List.mem_append_left _ (by simp [blockFor])
    · exact List.mem_append_right _ (ih (i + 1) a h)

/-- Claim C6: per-endpoint failures are absorbed at the endpoint-iteration
boundary.  For every environment — in particular one where every
`disablePersistence` call fails and every save call returns a connect or
protocol error — as long as the cancellation signal stays clear the run
never terminates (`none` for any amount of fuel, so errors never abort it),
and once the saving phase runs (`1 ≤ fuel`) every endpoint of the list,
including those whose disable command failed, receives a save call. -/
theorem c6_errors_absorbed (addrs : List String) (env : Env) (fuel : Nat)
    (hdone : ∀ n, env.done n = false) (hne : addrs ≠ []) :
    (doRun addrs env fuel).2 = none ∧
      (∀ a, a ∈ addrs → 1 ≤ fuel →
        Ev.beginSave a ∈ (doRun addrs env fuel).1) := by
  constructor
  · simp only [doRun, if_neg hne]
    exact runPasses_noDone addrs env hdone fuel 0 0
  · intro a ha hfuel
    obtain ⟨f, rfl⟩ : ∃ f, fuel = f + 1 := ⟨fuel - 1, by omega⟩
    have hps := passStep_noDone addrs (env.outcome 0) env.done 0 0 hdone
    simp only [doRun, if_neg hne, runPasses, hps, hdone, Bool.false_eq_true,
      if_false]
    exact List.mem_append_right _
      (List.mem_append_left _ (mem_savingTrace (env.outcome 0) addrs 0 a ha))

/-- Witness for C6: both disable calls fail and both save calls return a
connect error, yet the run is not aborted and the second endpoint still
receives its save call. -/
theorem c6_errors_absorbed_witness :
    (doRun ["a", "b"]
        ⟨fun _ => true, fun _ _ => SaveCallResult.connectErr, fun _ => false⟩
        1).2 = none ∧
      Ev.beginSave "b" ∈
        (doRun ["a", "b"]
          ⟨fun _ => true, fun _ _ => SaveCallResult.connectErr, fun _ => false⟩
          1).1 := by
  have h := c6_errors_absorbed ["a", "b"]
    ⟨fun _ => true, fun _ _ => SaveCallResult.connectErr, fun _ => false⟩
    1 (fun n => rfl) (by decide)
  exact ⟨h.1, h.2 "b" (by decide) (by decide)⟩

/-- Counterexample to C4 as stated: not every suspension point races
against the deadline signal.  `disablePersistence` receives no context at
all (`func disablePersistence(addr string) error`), so even with the
deadline already fired its dial suspension runs its full course: against an
unreachable host (dial would need 10 s) it blocks for the whole 5-second
connect timeout — far beyond any sub-second reaction latency — and the
same holds for every dial/command in `saveBlocking`. -/
theorem c4_counterexample :
    (disablePersistence 10 0 true).2 = dialTimeoutToggleSeconds ∧
      ¬ (disablePersistence 10 0 true).2 ≤ 1 := by
  decide

/-- Claim C4 amended: only the sleep suspension points race the signal.
The polling loop of the Save Waiter returns the context error as soon as
the fired signal is observed, performing no further reads, and the
inter-pass wait aborts the run when the signal has fired at its check; but
the network I/O of the Persistence Toggle observes no signal — its elapsed
time is simply dial-plus-command time, bounded only by the 5-second dial
timeout — so it can block past the deadline. -/
theorem c4_only_sleeps_race :
    (∀ (prev : Int) (rest : List PollEvent),
        pollLoop prev (PollEvent.ctxDone :: rest) = some SBResult.ctxCancelled) ∧
      (∀ (addrs : List String) (env : Env) (fuel p c : Nat),
        (passStep (env.outcome p) env.done addrs 0 c).2.1 = false →
        env.done (passStep (env.outcome p) env.done addrs 0 c).2.2 = true →
        (runPasses addrs env (fuel + 1) p c).2 = some DoError.ctxErr) ∧
      (∀ (dialDur cmdDur : Nat) (cmdOk : Bool),
        dialDur ≤ dialTimeoutToggleSeconds →
        (disablePersistence dialDur cmdDur cmdOk).2 = dialDur + cmdDur) := by
  refine ⟨fun prev rest => rfl, ?_, ?_⟩
  · intro addrs env fuel p c h1 h2
    simp [runPasses, h1, h2]
  · intro dialDur cmdDur cmdOk h
    simp [disablePersistence, Nat.not_lt.mpr h]

/-- Witness for the amended C4: a fired signal cancels the poll loop at
once; a signal fired at the inter-pass check ends the run; a 5-second dial
plus 1-second command runs for the full 6 seconds with no signal in
scope. -/
theorem c4_only_sleeps_race_witness :
    pollLoop 0 [PollEvent.ctxDone] = some SBResult.ctxCancelled ∧
      (runPasses ["a"]
          ⟨fun _ => false, fun _ _ => SaveCallResult.ok,
            fun c => decide (1 ≤ c)⟩ 1 0 0).2 = some DoError.ctxErr ∧
      (disablePersistence 5 1 true).2 = 5 + 1 :=
  ⟨c4_only_sleeps_race.1 0 [],
    c4_only_sleeps_race.2.1 ["a"]
      ⟨fun _ => false, fun _ _ => SaveCallResult.ok, fun c => decide (1 ≤ c)⟩
      0 0 0 (by decide) (by decide),
    c4_only_sleeps_race.2.2 5 1 true (by decide)⟩

/-- The outer loop can only produce the context error (or keep running):
the empty-addresses setup error arises before it. -/
theorem runPasses_ne_emptyAddresses (addrs : List String) (env : Env) :
    ∀ (fuel p c : Nat),
      (runPasses addrs env fuel p c).2 ≠ some DoError.emptyAddresses := by
  intro fuel
  induction fuel with
  | zero => intro p c; simp [runPasses]
  | succ f ih =>
    intro p c
    simp only [runPasses]
    cases hab : (passStep (env.outcome p) env.done addrs 0 c).2.1 with
    | true => simp [hab]
    | false =>
      cases hdn : env.done (passStep (env.outcome p) env.done addrs 0 c).2.2 with
      | true => simp [hdn]
      | false => simp [hdn, ih]

/-- Counterexample to C7 as stated: a whitespace-only line is not trimmed
away — `readLines` appends `string(bytes.TrimSpace(...))` unconditionally,
so the line survives as the empty-string endpoint `""`.  The resulting list
is non-empty, so `do` does not raise the setup error; instead the saving
phase issues network activity (a save call) against the `""` endpoint. -/
theorem c7_counterexample :
    readLines [" "] = [""] ∧
      Ev.beginSave "" ∈
        (doRun (readLines [" "])
          ⟨fun _ => false, fun _ _ => SaveCallResult.ok, fun _ => true⟩ 1).1 ∧
      (doRun (readLines [" "])
          ⟨fun _ => false, fun _ _ => SaveCallResult.ok, fun _ => true⟩ 1).2
        ≠ some DoError.emptyAddresses := by
  decide

/-- Claim C7 amended: each line is whitespace-trimmed (a line of only
whitespace trims to the empty string), but no line is dropped — the
endpoint list keeps one entry per input line, blank lines included, as
empty-string endpoints — and the run fails with the setup error exactly
when the line source has no lines at all. -/
theorem c7_trim_keeps_blank_lines :
    (∀ s : String, s.data.all goIsSpace = true → trimSpace s = "") ∧
      (∀ lines : List String, (readLines lines).length = lines.length) ∧
      (∀ (lines : List String) (env : Env) (fuel : Nat),
        (doRun (readLines lines) env fuel).2 = some DoError.emptyAddresses ↔
          lines = []) := by
  refine ⟨?_, ?_, ?_⟩
  · intro s hs
    have h1 : s.data.dropWhile goIsSpace = [] :=
      List.dropWhile_eq_nil_iff.mpr (fun x hx => List.all_eq_true.mp hs x hx)
    simp [trimSpace, h1]
  · intro lines
    simp [readLines]
  · intro lines env fuel
    constructor
    · intro h
      by_cases hl : readLines lines = []
      · exact List.map_eq_nil_iff.mp hl
      · exfalso
        rw [doRun, if_neg hl] at h
        exact runPasses_ne_emptyAddresses (readLines lines) env fuel 0 0 h
    · intro h
      subst h
      rfl

/-- Witness for the amended C7: the whitespace-only line `" "` trims empty,
a two-line source stays two endpoints, and an empty source is the setup
error. -/
theorem c7_trim_keeps_blank_lines_witness :
    trimSpace " " = "" ∧
      (readLines ["a", ""]).length = (["a", ""] : List String).length ∧
      ((doRun (readLines [])
          ⟨fun _ => false, fun _ _ => SaveCallResult.ok, fun _ => false⟩ 3).2 =
            some DoError.emptyAddresses ↔ ([] : List String) = []) :=
  ⟨c7_trim_keeps_blank_lines.1 " " (by decide),
    c7_trim_keeps_blank_lines.2.1 ["a", ""],
    c7_trim_keeps_blank_lines.2.2 []
      ⟨fun _ => false, fun _ _ => SaveCallResult.ok, fun _ => false⟩ 3⟩

/-- Setting position `n` exchanges the multiplicity contribution of the old
element for that of the new one. -/
theorem count_set_add {α : Type} [DecidableEq α] :
    ∀ (l : List α) (n : Nat) (b x : α) (h : n < l.length),
      (l.set n b).count x + (if l[n] = x then 1 else 0) =
        l.count x + (if b = x then 1 else 0) := by
  intro l
  induction l with
  | nil => intro n b x h; simp at h
  | cons a tl ih =>
    intro n b x h
    cases n with
    | zero =>
      simp only [List.set_cons_zero, List.getElem_cons_zero, List.count_cons]
      by_cases hax : a = x <;> by_cases hbx : b = x <;>
        simp [hax, hbx]
    | succ n =>
      have h2 : n < tl.length := by simpa using h
      have ih2 := ih n b x h2
      simp only [List.set_cons_succ, List.getElem_cons_succ, List.count_cons]
      by_cases hax : a = x <;> simp [hax] <;> omega

/-- The simultaneous index swap of the shuffle loop permutes the list. -/
theorem swapIdx_perm {α : Type} [DecidableEq α] (l : List α) (i j : Nat) :
    List.Perm (swapIdx l i j) l := by
  cases hi : l[i]? with
  | none =>
    have hsw : swapIdx l i j = l := by
      unfold swapIdx
      rw [hi]
      cases l[j]? <;> rfl
    rw [hsw]
  | some a =>
    cases hj : l[j]? with
    | none =>
      have hsw : swapIdx l i j = l := by
        unfold swapIdx
        rw [hi, hj]
      rw [hsw]
    | some b =>
      have hsw : swapIdx l i j = (l.set i b).set j a := by
        unfold swapIdx
        rw [hi, hj]
      rw [hsw]
      rcases List.getElem?_eq_some.mp hi with ⟨hilen, hia⟩
      rcases List.getElem?_eq_some.mp hj with ⟨hjlen, hjb⟩
      apply List.perm_iff_count.mpr
      intro x
      have hjlen2 : j < (l.set i b).length := by simpa using hjlen
      have e2 := count_set_add (l.set i b) j a x hjlen2
      have e1 := count_set_add l i b x hilen
      have hgj : (l.set i b)[j] = b := by
        by_cases hij : i = j
        · subst hij
          simp
        · rw [List.getElem_set_ne hij]
          exact hjb
      rw [hgj] at e2
      rw [hia] at e1
      omega

/-- Folding index swaps over any index/random streams permutes the list. -/
theorem foldl_swapIdx_perm {α : Type} [DecidableEq α] (r : Nat → Nat) :
    ∀ (idxs : List Nat) (l : List α),
      List.Perm
        (idxs.foldl (fun acc i => swapIdx acc i (r i % (i + 1))) l) l := by
  intro idxs
  induction idxs with
  | nil => intro l; exact List.Perm.refl l
  | cons i rest ih =>
    intro l
    exact List.Perm.trans (ih (swapIdx l i (r i % (i + 1)))) (swapIdx_perm l i _)

/-- Claim C8: the shuffle of `main` produces a permutation of its input for
every length (the multiset of endpoint identifiers is preserved — no
duplication, no loss), and on lists of length 0 or 1 it is the identity. -/
theorem c8_shuffle_perm :
    (∀ (r : Nat → Nat) (l : List String), List.Perm (shuffleGo r l) l) ∧
      (∀ (r : Nat → Nat) (l : List String), l.length ≤ 1 → shuffleGo r l = l) := by
  constructor
  · intro r l
    exact foldl_swapIdx_perm r (List.range l.length) l
  · intro r l h
    cases l with
    | nil => rfl
    | cons a tl =>
      cases tl with
      | nil => simp [shuffleGo, List.range_succ, swapIdx, Nat.mod_one]
      | cons b tl2 => simp at h

/-- Witness for C8: a singleton list is returned unchanged whatever the
random stream does. -/
theorem c8_shuffle_perm_witness : shuffleGo (fun _ => 0) ["x"] = ["x"] :=
  c8_shuffle_perm.2 (fun _ => 0) ["x"] (by decide)

end RedisSaveManager
